import Mathlib

/-!
Verification of the Atlas chat page (src/app/page.tsx).

The page's decision logic is embedded shallowly:
* `pickNarrative`, `summarizePrimaryTask`, `formatAgentMessage` are the three
  pure functions of the source, translated over Lean strings;
* the conversation controller (`queueUserMessage` plus the scheduled
  completion of its timeout) is embedded as explicit state passing on
  `AppState`, with a step relation `Step` covering the UI events.

JavaScript string primitives used by the source are modelled on `List Char`:
`jsToLower` for `toLowerCase` (ASCII case mapping), `jsTrim` for
`String.prototype.trim`, `jsIncludes` for `String.prototype.includes`,
`collapseWs` for `.replace(/\s+/g, " ").trim()` (the regex replaces each
maximal whitespace run by one space and the trim drops the boundary runs,
which is exactly joining the maximal non-whitespace runs with single
spaces), and `joinWith` for `Array.prototype.join`.  `jsIsSpace` covers the
ASCII whitespace recognised by the JavaScript `\s` class; the Unicode space
characters also matched by `\s` play no role in any property below.
The source file stores the bullet prefix as the three raw characters
"â€¢" (a mis-decoded bullet) and they are reproduced verbatim here.
-/

/-- ASCII whitespace as recognised by the JavaScript `\s` class and `trim`. -/
def jsIsSpace (c : Char) : Bool :=
  c = ' ' || c = '\t' || c = '\n' || c = '\r' || c = '\x0b' || c = '\x0c'

/-- Model of `String.prototype.toLowerCase` (ASCII range, which covers every keyword). -/
def jsToLower (s : String) : String :=
  ⟨s.data.map Char.toLower⟩

/-- Does `pat` occur as a contiguous run inside `l`?  Scans every suffix. -/
def infixAux (pat : List Char) : List Char → Bool
  | [] => List.isPrefixOf pat []
  | c :: rest => List.isPrefixOf pat (c :: rest) || infixAux pat rest

/-- Model of JavaScript `s.includes(pat)`: substring occurrence. -/
def jsIncludes (s pat : String) : Bool :=
  infixAux pat.data s.data

/-- Drop the characters satisfying `p` from both ends of a character list. -/
def trimEnds (p : Char → Bool) (l : List Char) : List Char :=
  ((l.dropWhile p).reverse.dropWhile p).reverse

/-- Model of `String.prototype.trim`: drop whitespace from both ends. -/
def jsTrim (s : String) : String :=
  ⟨trimEnds jsIsSpace s.data⟩

/-- Model of `prompt.replace(/\s+/g, " ").trim()`: the maximal non-whitespace
runs joined by single spaces. -/
def collapseWs (s : String) : String :=
  ⟨List.intercalate [' '] ((List.splitOnP jsIsSpace s.data).filter (fun t => t ≠ []))⟩

/-- Model of `Array.prototype.join(sep)`. -/
def joinWith (sep : String) : List String → String
  | [] => ""
  | [x] => x
  | x :: y :: xs => x ++ sep ++ joinWith sep (y :: xs)

/-- The `Author` union type of the source (`"user" | "agent" | "system"`). -/
inductive Author where
  | user
  | agent
  | system
deriving DecidableEq

/-- The `Message` record.  The `id` and `createdAt` fields are opaque tokens
drawn from the host environment (`crypto.randomUUID`, `Date`); no claim
depends on them and they are not modelled. -/
structure Message where
  author : Author
  content : String
  hint : Option String := none
deriving DecidableEq

/-- The `ModeState` record: the three independent mode flags. -/
structure ModeState where
  analysis : Bool
  planning : Bool
  summary : Bool
deriving DecidableEq

/-- A row of the `heuristics` table. -/
structure HeuristicRule where
  keywords : List String
  narrative : String
  steps : List String
deriving DecidableEq

/-- First row of `heuristics`. -/
def rulePlan : HeuristicRule :=
  { keywords := ["plan", "roadmap", "milestone", "strategy"],
    narrative := "You need a structured path. I'll break the objective into phases with crisp deliverables and checkpoints.",
    steps := ["Clarify success metrics and guardrails",
              "Sequence milestones with resource sizing",
              "Highlight dependencies and risk mitigations"] }

/-- Second row of `heuristics`. -/
def ruleContent : HeuristicRule :=
  { keywords := ["content", "write", "copy", "post"],
    narrative := "Let's align voice, audience, and distribution to keep every piece on-message and high leverage.",
    steps := ["Confirm target persona pains and desired outcomes",
              "Outline a reusable pillar/cluster structure",
              "Draft samples with tone, CTA, and repurposing notes"] }

/-- Third row of `heuristics`. -/
def ruleResearch : HeuristicRule :=
  { keywords := ["research", "analyze", "compare", "study"],
    narrative := "I'll synthesize signals, highlight patterns, and surface what deserves deeper digging.",
    steps := ["Frame hypotheses and evidence you already have",
              "Collect primary/secondary sources with confidence tiers",
              "Extract insights, contradictions, and suggested experiments"] }

/-- Fourth row of `heuristics`. -/
def ruleCode : HeuristicRule :=
  { keywords := ["code", "build", "architecture", "feature"],
    narrative := "I'll transform requirements into architecture, interfaces, and delivery sequencing.",
    steps := ["Capture user flows and data contracts",
              "Design modular components with integration notes",
              "Plan implementation slices with testing anchors"] }

/-- The `heuristics` table, in source order. -/
def heuristics : List HeuristicRule :=
  [rulePlan, ruleContent, ruleResearch, ruleCode]

/-- The `defaultResponse` object of the source.  The source object carries no
`keywords` field; it is represented with an empty keyword list. -/
def defaultResponse : HeuristicRule :=
  { keywords := [],
    narrative := "I'll evaluate the request, stabilize assumptions, and recommend a pragmatic action plan.",
    steps := ["Clarify the core objective and constraints",
              "Identify the most leverage-first deliverables",
              "Provide a tight feedback loop for the next iteration"] }

/-- Translation of `candidate.keywords.some((keyword) => normalized.includes(keyword))`. -/
def ruleMatches (normalized : String) (candidate : HeuristicRule) : Bool :=
  candidate.keywords.any (fun keyword => jsIncludes normalized keyword)

/-- The `pickNarrative` function of the source. -/
def pickNarrative (prompt : String) : HeuristicRule :=
  let normalized := jsToLower prompt
  (heuristics.find? (fun candidate => ruleMatches normalized candidate)).getD defaultResponse

/-- The `summarizePrimaryTask` function of the source. -/
def summarizePrimaryTask (prompt : String) (steps : List String) : String :=
  let concise := collapseWs prompt
  if concise = "" then steps.headD "Establishing context"
  else if concise.length < 120 then concise
  else steps.headD "Defining the objective"

/-- The `reflections` value of `formatAgentMessage`: the last two
user-authored history entries (`.slice(-2)` keeps the final two in order),
trimmed and bulleted, joined by newlines. -/
def reflections (messageHistory : List Message) : String :=
  let userMessages := messageHistory.filter (fun msg => msg.author = Author.user)
  joinWith "\n"
    ((userMessages.drop (userMessages.length - 2)).map
      (fun msg => "â€¢ " ++ jsTrim msg.content))

/-- The Analysis segment pushed by `formatAgentMessage` when `mode.analysis`
is set.  The source's `.filter(Boolean)` drops the two `null` entries (here:
the conditional list) and any empty string. -/
def analysisSegment (narrative : String) (messageHistory : List Message) : String :=
  let signals := reflections messageHistory
  let analysisLines :=
    (["**Analysis**", narrative] ++
      (if signals = "" then [] else ["Recent signals:", signals])).filter
      (fun line => line ≠ "")
  joinWith "\n" analysisLines

/-- Translation of the numbering map over `steps` in the Plan segment:
each step becomes `(index + 1) ++ ". " ++ step`. -/
def numberSteps (index : Nat) : List String → List String
  | [] => []
  | step :: rest => (toString (index + 1) ++ ". " ++ step) :: numberSteps (index + 1) rest

/-- The Plan segment pushed when `mode.planning` is set. -/
def planSegment (steps : List String) : String :=
  joinWith "\n" ("**Plan**" :: numberSteps 0 steps)

/-- The Next Move segment pushed when `mode.summary` is set. -/
def nextMoveSegment (input : String) (steps : List String) : String :=
  joinWith "\n" ["**Next Move**", "I'll start by focusing on: " ++ summarizePrimaryTask input steps]

/-- The `formatAgentMessage` function of the source: the flagged segments,
pushed in the fixed order Analysis, Plan, Next Move, joined by blank lines. -/
def formatAgentMessage (input : String) (mode : ModeState) (narrative : String)
    (steps : List String) (messageHistory : List Message) : String :=
  let segments : List String :=
    (if mode.analysis then [analysisSegment narrative messageHistory] else []) ++
    (if mode.planning then [planSegment steps] else []) ++
    (if mode.summary then [nextMoveSegment input steps] else [])
  joinWith "\n\n" segments

/-- The `initialMessages` constant: the seeded agent greeting. -/
def initialMessages : List Message :=
  [{ author := Author.agent,
     content := "Hey there! I'm Atlas, your autonomous problem-solving agent. Drop a challenge below and I'll break it down, plan my moves, and deliver focused execution steps.",
     hint := some "Ready when you are" }]

/-- The component state of `Home`: `messages`, `input`, `mode`, `isThinking`,
plus the agent message scheduled by the pending `setTimeout` (if any). -/
structure AppState where
  messages : List Message
  input : String
  mode : ModeState
  isThinking : Bool
  pendingAgent : Option Message
deriving DecidableEq

/-- The initial component state (`useState` initialisers). -/
def initState : AppState :=
  { messages := initialMessages,
    input := "",
    mode := { analysis := true, planning := true, summary := true },
    isThinking := false,
    pendingAgent := none }

/-- The `queueUserMessage` handler of the source: the synchronous part of a submit.
Rejects when the trimmed input is empty or a response is pending; otherwise
appends the user message, clears the input, sets the thinking flag, and
schedules the formatted agent message (modelled by `pendingAgent`). -/
def queueUserMessage (s : AppState) : AppState :=
  let trimmed := jsTrim s.input
  if trimmed = "" ∨ s.isThinking = true then s
  else
    let userMessage : Message := { author := Author.user, content := trimmed, hint := none }
    let rule := pickNarrative trimmed
    let agentContent :=
      formatAgentMessage trimmed s.mode rule.narrative rule.steps (s.messages ++ [userMessage])
    { s with
        messages := s.messages ++ [userMessage],
        input := "",
        isThinking := true,
        pendingAgent :=
          some { author := Author.agent, content := agentContent, hint := some "Calibrated plan ready" } }

/-- Completion of the scheduled timeout: append the prepared agent message
and clear the thinking flag.  A no-op when no timeout is pending. -/
def resolvePending (s : AppState) : AppState :=
  match s.pendingAgent with
  | none => s
  | some agentMessage =>
      { s with
          messages := s.messages ++ [agentMessage],
          isThinking := false,
          pendingAgent := none }

/-- The user message appended by an accepted submit on state `s`. -/
def userMsgOf (s : AppState) : Message :=
  { author := Author.user, content := jsTrim s.input, hint := none }

/-- The agent message scheduled by an accepted submit on state `s`. -/
def agentMsgOf (s : AppState) : Message :=
  { author := Author.agent,
    content :=
      formatAgentMessage (jsTrim s.input) s.mode
        (pickNarrative (jsTrim s.input)).narrative
        (pickNarrative (jsTrim s.input)).steps
        (s.messages ++ [userMsgOf s]),
    hint := some "Calibrated plan ready" }

/-- The keys of `ModeState`, for `toggleMode`. -/
inductive ModeKey where
  | analysis
  | planning
  | summary
deriving DecidableEq

/-- The `toggleMode` handler of the source. -/
def toggleMode (mode : ModeState) : ModeKey → ModeState
  | ModeKey.analysis => { mode with analysis := !mode.analysis }
  | ModeKey.planning => { mode with planning := !mode.planning }
  | ModeKey.summary => { mode with summary := !mode.summary }

/-- One UI event: a submit attempt, the pending timeout firing, editing the
input (typing or a quick prompt), or toggling a mode flag. -/
inductive Step : AppState → AppState → Prop where
  | submit (s : AppState) : Step s (queueUserMessage s)
  | resolve (s : AppState) : Step s (resolvePending s)
  | edit (s : AppState) (value : String) : Step s { s with input := value }
  | toggle (s : AppState) (key : ModeKey) : Step s { s with mode := toggleMode s.mode key }

/-- States reachable from the initial state through UI events. -/
inductive Reachable : AppState → Prop where
  | init : Reachable initState
  | next {s t : AppState} : Reachable s → Step s t → Reachable t

/-- Every agent message placed after the head of the conversation is
immediately preceded by the user message that triggered it. -/
def agentCausal (l : List Message) : Prop :=
  ∀ i : Nat, ∀ h : i + 1 < l.length,
    (l.get ⟨i + 1, h⟩).author = Author.agent →
      (l.get ⟨i, Nat.lt_of_succ_lt h⟩).author = Author.user

/-- Whenever a timeout is pending, the conversation ends with the user
message whose submit scheduled it. -/
def pendingOk (s : AppState) : Prop :=
  ∀ m : Message, s.pendingAgent = some m →
    ∃ pre u, s.messages = pre ++ [u] ∧ u.author = Author.user

/-- The delay `550 + Math.random() * 400` (milliseconds) before the
scheduled agent message is appended, as a function of the random draw. -/
def delayMs (r : ℚ) : ℚ := 550 + r * 400

/-- A 150-character prompt with no whitespace (for the length-150 example). -/
def longPrompt : String := ⟨List.replicate 150 'x'⟩


/-- A concrete state about to submit "hello" with every mode flag off. -/
def allOffSubmitState : AppState :=
  { initState with
      input := "hello",
      mode := { analysis := false, planning := false, summary := false } }

/-- A concrete state about to submit a prompt matching the plan rule. -/
def planSubmitState : AppState :=
  { initState with input := "plan the rollout" }

/-! ### String and list helper lemmas -/

theorem str_append_empty (s : String) : s ++ "" = s := by
  apply String.ext
  rw [String.data_append]
  exact List.append_nil s.data

theorem str_empty_append (s : String) : "" ++ s = s := by
  apply String.ext
  rw [String.data_append]
  exact List.nil_append s.data

theorem str_len_pos_of_ne_empty {s : String} (h : s ≠ "") : 0 < s.length := by
  cases s with
  | mk d =>
      cases d with
      | nil => exact absurd rfl h
      | cons c cs => exact Nat.succ_pos _

theorem str_append_ne_empty_left {a : String} (b : String) (h : a ≠ "") : a ++ b ≠ "" := by
  intro hc
  have hlen := congrArg String.length hc
  rw [String.length_append] at hlen
  have ha := str_len_pos_of_ne_empty h
  have hz : ("" : String).length = 0 := rfl
  omega

theorem joinWith_cons (sep x : String) (xs : List String) :
    ∃ r : String, joinWith sep (x :: xs) = x ++ r := by
  cases xs with
  | nil => exact ⟨"", (str_append_empty x).symm⟩
  | cons y ys =>
      refine ⟨sep ++ joinWith sep (y :: ys), ?_⟩
      show x ++ sep ++ joinWith sep (y :: ys) = x ++ (sep ++ joinWith sep (y :: ys))
      rw [String.append_assoc]

theorem joinWith_ne_empty (sep : String) {x : String} (xs : List String) (hx : x ≠ "") :
    joinWith sep (x :: xs) ≠ "" := by
  obtain ⟨r, hr⟩ := joinWith_cons sep x xs
  rw [hr]
  exact str_append_ne_empty_left r hx

theorem joinWith_append_last (sep : String) (ps : List String) (b : String) :
    ∃ q : String, joinWith sep (ps ++ [b]) = q ++ b := by
  induction ps with
  | nil => exact ⟨"", (str_empty_append b).symm⟩
  | cons p ps ih =>
      obtain ⟨q, hq⟩ := ih
      cases ps with
      | nil => exact ⟨p ++ sep, rfl⟩
      | cons p2 ps2 =>
          refine ⟨p ++ sep ++ q, ?_⟩
          show p ++ sep ++ joinWith sep ((p2 :: ps2) ++ [b]) = p ++ sep ++ q ++ b
          rw [hq, ← String.append_assoc]

theorem dropWhile_length_le (p : Char → Bool) (l : List Char) :
    (l.dropWhile p).length ≤ l.length := by
  induction l with
  | nil => exact Nat.le_refl _
  | cons a l ih =>
      by_cases h : p a = true
      · rw [List.dropWhile_cons, if_pos h]
        exact Nat.le_succ_of_le ih
      · rw [List.dropWhile_cons, if_neg h]

theorem dropWhile_dropWhile_self (p : Char → Bool) (l : List Char) :
    (l.dropWhile p).dropWhile p = l.dropWhile p := by
  induction l with
  | nil => rfl
  | cons a l ih =>
      by_cases h : p a = true
      · rw [List.dropWhile_cons, if_pos h, ih]
      · rw [List.dropWhile_cons, if_neg h, List.dropWhile_cons, if_neg h]

theorem dropWhile_eq_self_of_leading (p : Char → Bool) {a b : List Char}
    (ha : a.dropWhile p = a) (hab : b <+: a) : b.dropWhile p = b := by
  cases a with
  | nil =>
      have hb : b = [] := List.prefix_nil.mp hab
      rw [hb]
      rfl
  | cons x xs =>
      have hx : p x = false := by
        cases hpx : p x
        · rfl
        · rw [List.dropWhile_cons, if_pos hpx] at ha
          have hlen := congrArg List.length ha
          have hle := dropWhile_length_le p xs
          simp at hlen
          omega
      cases b with
      | nil => rfl
      | cons y ys =>
          obtain ⟨hy, -⟩ := List.cons_prefix_cons.mp hab
          rw [hy, List.dropWhile_cons, if_neg (by rw [hx]; exact Bool.false_ne_true)]

theorem trimEnds_idem (p : Char → Bool) (l : List Char) :
    trimEnds p (trimEnds p l) = trimEnds p l := by
  unfold trimEnds
  set T := ((l.dropWhile p).reverse.dropWhile p).reverse with hTdef
  have hTrev : T.reverse = (l.dropWhile p).reverse.dropWhile p := by
    rw [hTdef, List.reverse_reverse]
  have ha : (l.dropWhile p).dropWhile p = l.dropWhile p := dropWhile_dropWhile_self p l
  have hpre : T <+: l.dropWhile p := by
    apply List.reverse_suffix.mp
    rw [hTrev]
    exact List.dropWhile_suffix p
  have hT : T.dropWhile p = T := dropWhile_eq_self_of_leading p ha hpre
  have hTrevDrop : T.reverse.dropWhile p = T.reverse := by
    rw [hTrev]
    exact dropWhile_dropWhile_self p (l.dropWhile p).reverse
  rw [hT, hTrevDrop, List.reverse_reverse]

theorem jsTrim_idem (s : String) : jsTrim (jsTrim s) = jsTrim s := by
  unfold jsTrim
  exact congrArg String.mk (trimEnds_idem jsIsSpace s.data)

/-! ### Formatter helper lemmas -/

theorem reflections_of_no_user (history : List Message)
    (h : history.filter (fun msg => msg.author = Author.user) = []) :
    reflections history = "" := by
  simp only [reflections, h]
  rfl

theorem filter_append_user (l : List Message) (u : Message) (hu : u.author = Author.user) :
    (l ++ [u]).filter (fun msg => msg.author = Author.user) =
      l.filter (fun msg => msg.author = Author.user) ++ [u] := by
  rw [List.filter_append]
  congr 1
  rw [List.filter_cons_of_pos (by simp [hu]), List.filter_nil]

theorem reflections_append_user (l : List Message) (u : Message) (hu : u.author = Author.user) :
    ∃ earlier : String,
      reflections (l ++ [u]) = earlier ++ ("â€¢ " ++ jsTrim u.content) := by
  simp only [reflections]
  rw [filter_append_user l u hu]
  set us := l.filter (fun msg => msg.author = Author.user) with husdef
  have hle : (us ++ [u]).length - 2 ≤ us.length := by
    have h1 : ([u] : List Message).length = 1 := rfl
    rw [List.length_append, h1]
    omega
  rw [List.drop_append_of_le_length hle, List.map_append]
  simp only [List.map_cons, List.map_nil]
  exact joinWith_append_last "\n" _ _

theorem reflections_ne_empty (history : List Message)
    (h : history.filter (fun msg => msg.author = Author.user) ≠ []) :
    reflections history ≠ "" := by
  simp only [reflections]
  set us := history.filter (fun msg => msg.author = Author.user) with husdef
  have hpos : 0 < us.length := List.length_pos.mpr h
  have hdrop : us.drop (us.length - 2) ≠ [] := by
    intro hcon
    have hlen := congrArg List.length hcon
    rw [List.length_drop] at hlen
    simp at hlen
    omega
  obtain ⟨x, xs, hx⟩ := List.exists_cons_of_ne_nil hdrop
  rw [hx, List.map_cons]
  exact joinWith_ne_empty "\n" _ (str_append_ne_empty_left _ (by decide))

theorem analysisSegment_of_no_signals {narrative : String} (history : List Message)
    (hn : narrative ≠ "") (hs : reflections history = "") :
    analysisSegment narrative history = "**Analysis**" ++ "\n" ++ narrative := by
  simp only [analysisSegment, hs, if_pos]
  rw [List.append_nil]
  rw [List.filter_cons_of_pos (by decide), List.filter_cons_of_pos (by simp [hn]),
    List.filter_nil]
  rfl

theorem analysisSegment_of_signals {narrative : String} (history : List Message)
    (hn : narrative ≠ "") (hs : reflections history ≠ "") :
    analysisSegment narrative history =
      "**Analysis**" ++ "\n" ++ narrative ++ "\n" ++ "Recent signals:" ++ "\n" ++
        reflections history := by
  simp only [analysisSegment, if_neg hs]
  simp only [List.cons_append, List.nil_append]
  rw [List.filter_cons_of_pos (by decide), List.filter_cons_of_pos (by simp [hn]),
    List.filter_cons_of_pos (by decide), List.filter_cons_of_pos (by simp [hs]),
    List.filter_nil]
  show "**Analysis**" ++ "\n" ++
      (narrative ++ "\n" ++ ("Recent signals:" ++ "\n" ++ reflections history)) = _
  simp only [String.append_assoc]

/-! ### Controller helper lemmas -/

theorem format_modes_off (input narrative : String) (steps : List String)
    (history : List Message) :
    formatAgentMessage input { analysis := false, planning := false, summary := false }
      narrative steps history = "" := rfl

theorem format_analysis_head (input : String) (mode : ModeState) (narrative : String)
    (steps : List String) (history : List Message) (h : mode.analysis = true) :
    ∃ rest : String,
      formatAgentMessage input mode narrative steps history =
        analysisSegment narrative history ++ rest := by
  have hseg : formatAgentMessage input mode narrative steps history =
      joinWith "\n\n" (analysisSegment narrative history ::
        ((if mode.planning = true then [planSegment steps] else []) ++
         (if mode.summary = true then [nextMoveSegment input steps] else []))) := by
    simp [formatAgentMessage, h]
  rw [hseg]
  exact joinWith_cons "\n\n" _ _

theorem queue_reject (s : AppState) (h : jsTrim s.input = "" ∨ s.isThinking = true) :
    queueUserMessage s = s := by
  simp only [queueUserMessage]
  rw [if_pos h]

theorem queue_accept (s : AppState) (h1 : jsTrim s.input ≠ "") (h2 : s.isThinking = false) :
    queueUserMessage s =
      { messages := s.messages ++ [userMsgOf s],
        input := "",
        mode := s.mode,
        isThinking := true,
        pendingAgent := some (agentMsgOf s) } := by
  have hcond : ¬(jsTrim s.input = "" ∨ s.isThinking = true) := by
    rintro (hc | hc)
    · exact h1 hc
    · rw [h2] at hc
      exact Bool.false_ne_true hc
  simp only [queueUserMessage]
  rw [if_neg hcond]
  rfl

theorem get_append_left (l : List Message) (m : Message) (i : Nat) (hi : i < l.length)
    (h : i < (l ++ [m]).length) :
    (l ++ [m]).get ⟨i, h⟩ = l.get ⟨i, hi⟩ := by
  rw [List.get_eq_getElem, List.get_eq_getElem]
  exact List.getElem_append_left hi

theorem get_append_last (l : List Message) (m : Message) (i : Nat) (hi : i = l.length)
    (h : i < (l ++ [m]).length) : (l ++ [m]).get ⟨i, h⟩ = m := by
  rw [List.get_eq_getElem]
  simp only [Fin.val_mk]
  rw [List.getElem_append_right (by omega)]
  simp [hi]

theorem agentCausal_append (l : List Message) (m : Message)
    (hl : agentCausal l)
    (hm : m.author = Author.agent → ∃ pre u, l = pre ++ [u] ∧ u.author = Author.user) :
    agentCausal (l ++ [m]) := by
  intro i h hAgent
  have hlen : (l ++ [m]).length = l.length + 1 := by
    rw [List.length_append]
    rfl
  by_cases hi : i + 1 < l.length
  · have e1 := get_append_left l m (i + 1) hi h
    have e0 := get_append_left l m i (Nat.lt_of_succ_lt hi) (Nat.lt_of_succ_lt h)
    rw [e0]
    exact hl i hi (by rw [← e1]; exact hAgent)
  · have hi1 : i + 1 = l.length := by
      rw [hlen] at h
      omega
    have e1 := get_append_last l m (i + 1) hi1 h
    obtain ⟨pre, u, hlu, hu⟩ := hm (by rw [← e1]; exact hAgent)
    subst hlu
    have hl2 : (pre ++ [u]).length = pre.length + 1 := by
      rw [List.length_append]
      rfl
    have hip : i = pre.length := by omega
    have hi_lt : i < (pre ++ [u]).length := by
      rw [hl2]
      omega
    have e0 : ((pre ++ [u]) ++ [m]).get ⟨i, Nat.lt_of_succ_lt h⟩ = u := by
      rw [get_append_left (pre ++ [u]) m i hi_lt]
      exact get_append_last pre u i hip hi_lt
    rw [e0]
    exact hu

theorem step_keeps_messages {s t : AppState} (h : Step s t) : s.messages <+: t.messages := by
  cases h with
  | submit =>
      by_cases hg : jsTrim s.input = "" ∨ s.isThinking = true
      · rw [queue_reject s hg]
      · have h1 : jsTrim s.input ≠ "" := fun hc => hg (Or.inl hc)
        have h2 : s.isThinking = false := by
          cases hb : s.isThinking
          · rfl
          · exact absurd (Or.inr hb) hg
        rw [queue_accept s h1 h2]
        exact List.prefix_append _ _
  | resolve =>
      cases hp : s.pendingAgent with
      | none =>
          simp only [resolvePending, hp]
          exact List.prefix_rfl
      | some m =>
          simp only [resolvePending, hp]
          exact List.prefix_append _ _
  | edit value => exact List.prefix_rfl
  | toggle key => exact List.prefix_rfl

theorem inv_preserved {s t : AppState} (h : Step s t)
    (hc : agentCausal s.messages) (hp : pendingOk s) :
    agentCausal t.messages ∧ pendingOk t := by
  cases h with
  | submit =>
      by_cases hg : jsTrim s.input = "" ∨ s.isThinking = true
      · rw [queue_reject s hg]
        exact ⟨hc, hp⟩
      · have h1 : jsTrim s.input ≠ "" := fun hcon => hg (Or.inl hcon)
        have h2 : s.isThinking = false := by
          cases hb : s.isThinking
          · rfl
          · exact absurd (Or.inr hb) hg
        rw [queue_accept s h1 h2]
        constructor
        · exact agentCausal_append _ _ hc (fun habs => absurd habs (by simp [userMsgOf]))
        · intro m hm
          exact ⟨s.messages, userMsgOf s, rfl, rfl⟩
  | resolve =>
      cases hpend : s.pendingAgent with
      | none =>
          simp only [resolvePending, hpend]
          exact ⟨hc, hp⟩
      | some m =>
          simp only [resolvePending, hpend]
          constructor
          · exact agentCausal_append _ _ hc (fun _ => hp m hpend)
          · intro m' hm'
            exact absurd hm' (by simp)
  | edit value => exact ⟨hc, hp⟩
  | toggle key => exact ⟨hc, hp⟩

theorem reachable_inv {s : AppState} (h : Reachable s) :
    agentCausal s.messages ∧ pendingOk s := by
  induction h with
  | init =>
      constructor
      · intro i hi hAgent
        have hlen : initState.messages.length = 1 := rfl
        omega
      · intro m hm
        exact absurd hm (by simp [initState])
  | next hr hstep ih => exact inv_preserved hstep ih.1 ih.2

theorem pickNarrative_narrative_ne (p : String) : (pickNarrative p).narrative ≠ "" := by
  simp only [pickNarrative]
  cases hf : List.find? (fun candidate => ruleMatches (jsToLower p) candidate) heuristics with
  | none => decide
  | some r =>
      have hr := List.mem_of_find?_eq_some hf
      simp only [Option.getD_some]
      simp only [heuristics, List.mem_cons, List.not_mem_nil, or_false] at hr
      rcases hr with h | h | h | h <;> rw [h] <;> decide

theorem numberSteps_length (n : Nat) (l : List String) :
    (numberSteps n l).length = l.length := by
  induction l generalizing n with
  | nil => rfl
  | cons x xs ih => simp only [numberSteps, List.length_cons, ih]

theorem numberSteps_getD (l : List String) (n i : Nat) (h : i < l.length) :
    (numberSteps n l).getD i "" = toString (n + i + 1) ++ ". " ++ l.getD i "" := by
  induction l generalizing n i with
  | nil => exact absurd h (by simp)
  | cons x xs ih =>
      cases i with
      | zero => simp [numberSteps]
      | succ j =>
          have hj : j < xs.length := Nat.lt_of_succ_lt_succ h
          simp only [numberSteps, List.getD_cons_succ]
          rw [ih (n + 1) j hj]
          have he : n + 1 + j + 1 = n + (j + 1) + 1 := by omega
          rw [he]

/-! ### Claims -/

/-- Claim C1: for every input string, `pickNarrative` lowercases the input and
returns the first rule of the `heuristics` table, in table order, one of
whose keywords occurs as a substring of the normalized input; when no rule's
keyword occurs it returns `defaultResponse`.  The nested conditional makes
the earliest-rule-wins order explicit, and totality is inherent in the
function being defined for every input. -/
theorem pickNarrative_first_match (prompt : String) :
    pickNarrative prompt =
      (if ruleMatches (jsToLower prompt) rulePlan = true then rulePlan
       else if ruleMatches (jsToLower prompt) ruleContent = true then ruleContent
       else if ruleMatches (jsToLower prompt) ruleResearch = true then ruleResearch
       else if ruleMatches (jsToLower prompt) ruleCode = true then ruleCode
       else defaultResponse) ∧
    heuristics = [rulePlan, ruleContent, ruleResearch, ruleCode] := by
  refine ⟨?_, rfl⟩
  simp only [pickNarrative, heuristics]
  cases h1 : ruleMatches (jsToLower prompt) rulePlan <;>
    cases h2 : ruleMatches (jsToLower prompt) ruleContent <;>
      cases h3 : ruleMatches (jsToLower prompt) ruleResearch <;>
        cases h4 : ruleMatches (jsToLower prompt) ruleCode <;>
          simp [List.find?, h1, h2, h3, h4]

set_option maxRecDepth 8000 in
/-- Claim C2: `summarizePrimaryTask` returns the whitespace-collapsed trimmed
prompt when that is nonempty and shorter than 120 characters, else the first
plan step (with a fixed fallback phrase when there are no steps); and for a
concrete prompt whose collapsed form has length 150 with steps
`["A", "B", "C"]`, the Next Move segment reads
`I'll start by focusing on: A`. -/
theorem summarize_primary_task_spec :
    (∀ (prompt : String) (steps : List String),
      (collapseWs prompt ≠ "" → (collapseWs prompt).length < 120 →
          summarizePrimaryTask prompt steps = collapseWs prompt) ∧
      (collapseWs prompt = "" →
          summarizePrimaryTask prompt steps = steps.headD "Establishing context") ∧
      (120 ≤ (collapseWs prompt).length →
          summarizePrimaryTask prompt steps = steps.headD "Defining the objective")) ∧
    (collapseWs longPrompt).length = 150 ∧
    summarizePrimaryTask longPrompt ["A", "B", "C"] = "A" ∧
    nextMoveSegment longPrompt ["A", "B", "C"] =
      "**Next Move**" ++ "\n" ++ "I'll start by focusing on: A" := by
  refine ⟨fun prompt steps => ⟨?_, ?_, ?_⟩, by decide, by decide, by decide⟩
  · intro hne h120
    simp only [summarizePrimaryTask]
    rw [if_neg hne, if_pos h120]
  · intro h0
    simp only [summarizePrimaryTask]
    rw [if_pos h0]
  · intro h120
    have hne : collapseWs prompt ≠ "" := by
      intro he
      rw [he] at h120
      have hz : ("" : String).length = 0 := rfl
      omega
    simp only [summarizePrimaryTask]
    rw [if_neg hne, if_neg (by omega)]

theorem summarize_primary_task_spec_witness :
    summarizePrimaryTask "  build the api  " [] = collapseWs "  build the api  " :=
  ((summarize_primary_task_spec.1 "  build the api  " []).1) (by decide) (by decide)

/-- Claim C3: with the analysis flag set, the Analysis segment is the rule's
narrative followed by a "Recent signals" listing exactly when the history
contains at least one user-authored message; and for flags
`{analysis := true, planning := false, summary := false}` with empty history
the whole output is the labelled narrative with no "Recent signals" block. -/
theorem analysis_segment_characterization (input : String) (mode : ModeState)
    (narrative : String) (steps : List String) (history : List Message)
    (hn : narrative ≠ "") :
    (history.filter (fun msg => msg.author = Author.user) = [] →
        analysisSegment narrative history = "**Analysis**" ++ "\n" ++ narrative) ∧
    (history.filter (fun msg => msg.author = Author.user) ≠ [] →
        analysisSegment narrative history =
          "**Analysis**" ++ "\n" ++ narrative ++ "\n" ++ "Recent signals:" ++ "\n" ++
            reflections history ∧
          reflections history ≠ "") ∧
    (mode = { analysis := true, planning := false, summary := false } → history = [] →
        formatAgentMessage input mode narrative steps history =
          "**Analysis**" ++ "\n" ++ narrative) := by
  refine ⟨?_, ?_, ?_⟩
  · intro h
    exact analysisSegment_of_no_signals history hn (reflections_of_no_user history h)
  · intro h
    have hs := reflections_ne_empty history h
    exact ⟨analysisSegment_of_signals history hn hs, hs⟩
  · intro hm hh
    subst hm
    subst hh
    have hstep : formatAgentMessage input
        { analysis := true, planning := false, summary := false } narrative steps [] =
        analysisSegment narrative [] := rfl
    rw [hstep]
    exact analysisSegment_of_no_signals [] hn rfl

theorem analysis_segment_characterization_witness :
    analysisSegment rulePlan.narrative [] = "**Analysis**" ++ "\n" ++ rulePlan.narrative :=
  (analysis_segment_characterization ""
      { analysis := true, planning := false, summary := false }
      rulePlan.narrative [] [] (by decide)).1 rfl

/-- Claim C4: every UI event preserves the existing message sequence as a
prefix (messages are only ever appended, never mutated, removed or
reordered), and in every reachable state every agent message other than the
seeded greeting at the head is immediately preceded by the user message
whose submit produced it. -/
theorem conversation_append_only_and_causal :
    (∀ s t : AppState, Step s t → s.messages <+: t.messages) ∧
    (∀ s : AppState, Reachable s → agentCausal s.messages) :=
  ⟨fun _ _ h => step_keeps_messages h, fun _ h => (reachable_inv h).1⟩

theorem conversation_append_only_and_causal_witness :
    initState.messages <+: (queueUserMessage initState).messages ∧
      agentCausal initState.messages :=
  ⟨conversation_append_only_and_causal.1 initState (queueUserMessage initState)
      (Step.submit initState),
    conversation_append_only_and_causal.2 initState Reachable.init⟩

/-- Claim C5: a submit with empty trimmed input or while a response is
pending is a complete no-op: the state is unchanged, in particular the
message count, the input field, the thinking flag and the scheduled
message. -/
theorem submit_rejected_noop (s : AppState)
    (h : jsTrim s.input = "" ∨ s.isThinking = true) :
    queueUserMessage s = s ∧
    (queueUserMessage s).messages.length = s.messages.length ∧
    (queueUserMessage s).input = s.input ∧
    (queueUserMessage s).isThinking = s.isThinking ∧
    (queueUserMessage s).pendingAgent = s.pendingAgent := by
  rw [queue_reject s h]
  exact ⟨rfl, rfl, rfl, rfl, rfl⟩

theorem submit_rejected_noop_witness :
    queueUserMessage { initState with input := "   " } = { initState with input := "   " } :=
  (submit_rejected_noop { initState with input := "   " } (Or.inl (by decide))).1

/-- Claim C6: when all three mode flags are false the formatter returns the
empty string, for every input, narrative, step list and history. -/
theorem formatter_all_flags_off (input narrative : String) (steps : List String)
    (history : List Message) :
    formatAgentMessage input { analysis := false, planning := false, summary := false }
      narrative steps history = "" :=
  format_modes_off input narrative steps history

/-- Claim C7: the formatter's output is the blank-line join of exactly the
segments whose flags are set, in the fixed order Analysis, Plan, Next Move
(so between zero and three segments, one per set flag), and the Plan segment
renders the steps as a 1-indexed numbered list in their original order. -/
theorem format_segment_structure (input : String) (mode : ModeState) (narrative : String)
    (steps : List String) (history : List Message) :
    formatAgentMessage input mode narrative steps history =
      joinWith "\n\n"
        ((if mode.analysis = true then [analysisSegment narrative history] else []) ++
         (if mode.planning = true then [planSegment steps] else []) ++
         (if mode.summary = true then [nextMoveSegment input steps] else [])) ∧
    ((if mode.analysis = true then [analysisSegment narrative history] else []) ++
     (if mode.planning = true then [planSegment steps] else []) ++
     (if mode.summary = true then [nextMoveSegment input steps] else [])).length =
      (cond mode.analysis 1 0) + (cond mode.planning 1 0) + (cond mode.summary 1 0) ∧
    planSegment steps = joinWith "\n" ("**Plan**" :: numberSteps 0 steps) ∧
    (numberSteps 0 steps).length = steps.length ∧
    (∀ i : Nat, i < steps.length →
      (numberSteps 0 steps).getD i "" = toString (i + 1) ++ ". " ++ steps.getD i "") := by
  refine ⟨rfl, ?_, rfl, numberSteps_length 0 steps, ?_⟩
  · cases mode with
    | mk a p su => cases a <;> cases p <;> cases su <;> rfl
  · intro i h
    have hi := numberSteps_getD steps 0 i h
    simpa using hi

theorem format_segment_structure_witness :
    (numberSteps 0 ["alpha", "beta"]).getD 1 "" = "2. beta" := by
  have h := (format_segment_structure ""
      { analysis := true, planning := true, summary := true }
      "n" ["alpha", "beta"] []).2.2.2.2 1 (by decide)
  rw [h]
  decide

/-- Claim C8: an accepted submission made while all three mode flags are
false still schedules an agent message, and that agent message has empty
content; resolving the timeout appends it to the conversation after the
user message. -/
theorem submit_all_flags_off_appends_empty_agent (s : AppState)
    (h1 : jsTrim s.input ≠ "") (h2 : s.isThinking = false)
    (h3 : s.mode = { analysis := false, planning := false, summary := false }) :
    ∃ m : Message,
      (queueUserMessage s).pendingAgent = some m ∧
      m.author = Author.agent ∧
      m.content = "" ∧
      (resolvePending (queueUserMessage s)).messages =
        s.messages ++ [userMsgOf s, m] := by
  refine ⟨agentMsgOf s, ?_, rfl, ?_, ?_⟩
  · rw [queue_accept s h1 h2]
  · show formatAgentMessage (jsTrim s.input) s.mode (pickNarrative (jsTrim s.input)).narrative
        (pickNarrative (jsTrim s.input)).steps (s.messages ++ [userMsgOf s]) = ""
    rw [h3]
    exact format_modes_off _ _ _ _
  · rw [queue_accept s h1 h2]
    show (s.messages ++ [userMsgOf s]) ++ [agentMsgOf s] =
      s.messages ++ [userMsgOf s, agentMsgOf s]
    rw [List.append_assoc]
    rfl

theorem submit_all_flags_off_appends_empty_agent_witness :
    ∃ m : Message,
      (queueUserMessage allOffSubmitState).pendingAgent = some m ∧
      m.author = Author.agent ∧
      m.content = "" ∧
      (resolvePending (queueUserMessage allOffSubmitState)).messages =
        allOffSubmitState.messages ++ [userMsgOf allOffSubmitState, m] :=
  submit_all_flags_off_appends_empty_agent allOffSubmitState (by decide) rfl rfl

/-- Claim C9: on every accepted submission the history handed to the
formatter already contains the just-appended user message, so with the
analysis flag on, the scheduled reply's Analysis segment always carries a
"Recent signals" block whose final bullet is the trimmed current input: the
"user messages exist" branch of the formatter cannot be false on this
path. -/
theorem accepted_submit_sees_user_message (s : AppState)
    (h1 : jsTrim s.input ≠ "") (h2 : s.isThinking = false) (h3 : s.mode.analysis = true) :
    ∃ m : Message,
      (queueUserMessage s).pendingAgent = some m ∧
      (s.messages ++ [userMsgOf s]).filter (fun msg => msg.author = Author.user) ≠ [] ∧
      (∃ earlier : String,
        reflections (s.messages ++ [userMsgOf s]) = earlier ++ ("â€¢ " ++ jsTrim s.input)) ∧
      analysisSegment (pickNarrative (jsTrim s.input)).narrative (s.messages ++ [userMsgOf s]) =
        "**Analysis**" ++ "\n" ++ (pickNarrative (jsTrim s.input)).narrative ++ "\n" ++
          "Recent signals:" ++ "\n" ++ reflections (s.messages ++ [userMsgOf s]) ∧
      (∃ rest : String,
        m.content =
          analysisSegment (pickNarrative (jsTrim s.input)).narrative
            (s.messages ++ [userMsgOf s]) ++ rest) := by
  have huser : (userMsgOf s).author = Author.user := rfl
  have hfilter := filter_append_user s.messages (userMsgOf s) huser
  have hfne : (s.messages ++ [userMsgOf s]).filter
      (fun msg => msg.author = Author.user) ≠ [] := by
    rw [hfilter]
    simp
  obtain ⟨earlier, hearlier⟩ := reflections_append_user s.messages (userMsgOf s) huser
  have hearlier2 : reflections (s.messages ++ [userMsgOf s]) =
      earlier ++ ("â€¢ " ++ jsTrim s.input) := by
    rw [hearlier]
    have hcontent : (userMsgOf s).content = jsTrim s.input := rfl
    rw [hcontent, jsTrim_idem]
  have hrne : reflections (s.messages ++ [userMsgOf s]) ≠ "" := reflections_ne_empty _ hfne
  have hseg := analysisSegment_of_signals (s.messages ++ [userMsgOf s])
      (pickNarrative_narrative_ne (jsTrim s.input)) hrne
  obtain ⟨rest, hrest⟩ := format_analysis_head (jsTrim s.input) s.mode
      (pickNarrative (jsTrim s.input)).narrative (pickNarrative (jsTrim s.input)).steps
      (s.messages ++ [userMsgOf s]) h3
  refine ⟨agentMsgOf s, ?_, hfne, ⟨earlier, hearlier2⟩, hseg, ⟨rest, ?_⟩⟩
  · rw [queue_accept s h1 h2]
  · exact hrest

theorem accepted_submit_sees_user_message_witness :
    (planSubmitState.messages ++ [userMsgOf planSubmitState]).filter
        (fun msg => msg.author = Author.user) ≠ [] := by
  obtain ⟨m, hpend, hfilter, hrest⟩ := accepted_submit_sees_user_message
      planSubmitState (by decide) rfl rfl
  exact hfilter

/-- Claim C10: for every random draw `r` in `[0, 1)` the scheduled delay
`550 + r * 400` milliseconds lies in the half-open interval `[550, 950)`. -/
theorem delay_in_range (r : ℚ) (h0 : 0 ≤ r) (h1 : r < 1) :
    550 ≤ delayMs r ∧ delayMs r < 950 := by
  unfold delayMs
  constructor
  · nlinarith
  · nlinarith

theorem delay_in_range_witness :
    550 ≤ delayMs (1 / 2) ∧ delayMs (1 / 2) < 950 :=
  delay_in_range (1 / 2) (by norm_num) (by norm_num)
